import Mathlib

/-!
# Verification of the AIPitBoss credential-resolution subsystem

This file is a shallow embedding, in Lean 4, of the key-manager core of the
AIPitBoss package (`aipitboss/key_manager.py` for the static resolution form,
`key_manager_original.py` for the stateful registry form), together with
theorems settling the specification claims about it.

Modelling conventions:
* Flat JSON objects (key files, `os.environ`) are association lists of
  strings; lookup returns the first matching entry, mirroring the unique-key
  dictionaries the Python code manipulates.
* Python truthiness of an optional string (`if key:`) is "present and
  non-empty".
* Filesystem content relevant to the code is carried explicitly: a file is
  absent, present-but-not-JSON, or a parsed JSON object.  I/O faults the code
  can hit (an OS error while reading, creating a directory, or writing) are
  supplied by an explicit oracle, and a propagating Python exception is an
  `Except.error`.
* HTTP validation probes are an oracle from service name to an abstract
  response (transport exception, or a status code with an optionally
  JSON-parseable body); the provider-specific body shapes the code inspects
  (`data[*].id` for openai, `models` for anthropic) are carried as fields.
-/

namespace Aipitboss

/-- A flat JSON object / environment block: association list of string keys to
string values.  Lookup takes the first matching entry. -/
abbrev Dict := List (String × String)

/-- First-match lookup, the embedding of `d[k]` / `d.get(k)` on a Python
dictionary. -/
def dictGet (d : Dict) (k : String) : Option String :=
  match d with
  | [] => none
  | (k1, v) :: rest => if k1 = k then some v else dictGet rest k

/-- The embedding of `d[k] = v` on a Python dictionary: update in place if the
key is present (first occurrence), otherwise append. -/
def dictSet (d : Dict) (k v : String) : Dict :=
  if (dictGet d k).isSome then
    d.map (fun p => if p.1 = k then (k, v) else p)
  else
    d ++ [(k, v)]

/-- Python truthiness of `Optional[str]`: present and non-empty. -/
def truthy (o : Option String) : Bool :=
  match o with
  | some s => !s.isEmpty
  | none => false

/-- Python's `str.upper()` restricted to the ASCII service names the code
handles: uppercase every character.  (Defined over the character list so that
it reduces inside the kernel.) -/
def pyUpper (s : String) : String :=
  ⟨s.data.map Char.toUpper⟩

/-- `service.startswith("_")`: whether the first character is an
underscore. -/
def startsWithUnderscore (s : String) : Bool :=
  match s.data with
  | [] => false
  | c :: _ => c = '_'

/-- Decidable equality for `Except`, so that concrete resolution results can
be decided. -/
def exceptDecEq {ε α : Type} [DecidableEq ε] [DecidableEq α] :
    DecidableEq (Except ε α) := fun x y =>
  match x, y with
  | .ok a, .ok b =>
    if h : a = b then .isTrue (by rw [h])
    else .isFalse (by intro hc; cases hc; exact h rfl)
  | .ok _, .error _ => .isFalse (by intro hc; cases hc)
  | .error _, .ok _ => .isFalse (by intro hc; cases hc)
  | .error e, .error f =>
    if h : e = f then .isTrue (by rw [h])
    else .isFalse (by intro hc; cases hc; exact h rfl)

instance {ε α : Type} [DecidableEq ε] [DecidableEq α] :
    DecidableEq (Except ε α) := exceptDecEq

/-- Content of one file path as far as the key manager can observe it. -/
inductive FileContent
  | absent
  | notJson
  | json (d : Dict)
  deriving DecidableEq, Repr

/-- `os.path.exists` on the modelled file. -/
def FileContent.existsb : FileContent → Bool
  | .absent => false
  | _ => true

/-- `KeyManager.ENV_PREFIXES`: the static service-name to environment-variable
mapping. -/
def ENV_PREFIXES : Dict :=
  [("openai", "OPENAI_API_KEY"),
   ("anthropic", "ANTHROPIC_API_KEY"),
   ("huggingface", "HF_API_KEY")]

/-- `KeyManager.BASE_URLS`: base URLs for service API testing. -/
def BASE_URLS : Dict :=
  [("openai", "https://api.openai.com/v1"),
   ("anthropic", "https://api.anthropic.com"),
   ("huggingface", "https://api-inference.huggingface.co/models")]

/-- `KeyManager.TEST_ENDPOINTS`: endpoints used to test API keys. -/
def TEST_ENDPOINTS : Dict :=
  [("openai", "/models"),
   ("anthropic", "/v1/models"),
   ("huggingface", "")]

/-- `self.ENV_PREFIXES.get(service, service.upper() + '_API_KEY')`: the
environment-variable name quoted in not-found errors and used when persisting
to the environment. -/
def envVarHint (service : String) : String :=
  (dictGet ENV_PREFIXES service).getD (pyUpper service ++ "_API_KEY")

/-- The `ValueError` raised when no source yields a key, reduced to the two
data it carries in its message: the service name and the environment-variable
name that would have satisfied the lookup. -/
structure CredentialNotFound where
  service : String
  envVar : String
  deriving DecidableEq, Repr

/-- `KeyManager._load_from_file`: read a JSON key file and try four key-name
variants in order (exact service, `service_api_key`, `SERVICE`,
`SERVICE_API_KEY`), returning the first variant present.  An absent file
(`FileNotFoundError`) or undecodable file (`json.JSONDecodeError`) yields
`none`. -/
def loadFromFile (content : FileContent) (service : String) : Option String :=
  match content with
  | .json keys =>
    match dictGet keys service with
    | some v => some v
    | none =>
      match dictGet keys (service ++ "_api_key") with
      | some v => some v
      | none =>
        match dictGet keys (pyUpper service) with
        | some v => some v
        | none =>
          match dictGet keys (pyUpper service ++ "_API_KEY") with
          | some v => some v
          | none => none
  | _ => none

/-- The two implicit fallback key files of the static resolver: `.keys.json`
in the working directory and `~/.aipitboss_keys.json`. -/
structure Fs where
  localFile : FileContent
  homeFile : FileContent
  deriving DecidableEq, Repr

/-- One file-source step of `get_api_key`: `if os.path.exists(path):
key = _load_from_file(path, service); if key: return key` — a file that does
not exist, yields no variant, or yields an empty value falls through. -/
def fileSource (content : FileContent) (service : String) : Option String :=
  if content.existsb then
    match loadFromFile content service with
    | some k => if k.isEmpty then none else some k
    | none => none
  else none

/-- The environment step of `get_api_key`: only consulted with `use_env` and
only for services in `ENV_PREFIXES`; an unset or empty variable falls
through. -/
def envSource (env : Dict) (service : String) (use_env : Bool) : Option String :=
  if use_env then
    match dictGet ENV_PREFIXES service with
    | some envVar =>
      match dictGet env envVar with
      | some k => if k.isEmpty then none else some k
      | none => none
    | none => none
  else none

/-- The explicit-parameter step of `get_api_key`: `if api_key: return
api_key`. -/
def directSource (api_key : Option String) : Option String :=
  match api_key with
  | some k => if k.isEmpty then none else some k
  | none => none

/-- `KeyManager.get_api_key` (static form; identical to
`KeyManager._get_api_key_static` in the original module).  Sources are
consulted in order: explicit parameter, the given keys file (when a path was
passed and the file exists), the local working-directory file, the home file,
then the environment; the first truthy hit is returned and otherwise a
`ValueError` naming the service and its environment variable is raised.
`keys_file = none` models a `None` (or empty, hence falsy) `keys_file`
argument. -/
def get_api_key (service : String) (api_key : Option String)
    (keys_file : Option FileContent) (fs : Fs) (env : Dict)
    (use_env : Bool) : Except CredentialNotFound String :=
  match directSource api_key with
  | some k => .ok k
  | none =>
    match keys_file.bind (fun c => fileSource c service) with
    | some k => .ok k
    | none =>
      match fileSource fs.localFile service with
      | some k => .ok k
      | none =>
        match fileSource fs.homeFile service with
        | some k => .ok k
        | none =>
          match envSource env service use_env with
          | some k => .ok k
          | none => .error ⟨service, envVarHint service⟩

/-- First truthy candidate of a list of optional strings, used to state the
fixed-order, first-match-wins characterisation of `get_api_key`. -/
def firstHit : List (Option String) → Option String
  | [] => none
  | o :: rest =>
    match o with
    | some k => some k
    | none => firstHit rest

/-- The five candidate sources of `get_api_key`, in consultation order. -/
def sourceCandidates (service : String) (api_key : Option String)
    (keys_file : Option FileContent) (fs : Fs) (env : Dict)
    (use_env : Bool) : List (Option String) :=
  [directSource api_key,
   keys_file.bind (fun c => fileSource c service),
   fileSource fs.localFile service,
   fileSource fs.homeFile service,
   envSource env service use_env]

/-! ## The stateful registry (`key_manager_original.py`) -/

/-- Where a registered credential was discovered.  The code only ever stores
the strings `"environment"` and `"file"` in `services_info[..]["source"]`. -/
inductive Source
  | environment
  | file
  deriving DecidableEq, Repr

/-- One value of `self.services_info`: the per-service info dictionary.
`valid` is the tri-state `True` / `False` / `None`. -/
structure ServiceInfo where
  api_key : String
  source : Source
  valid : Option Bool
  models : List String
  deriving DecidableEq, Repr

/-- `self.services_info`: insertion-ordered dictionary from service name to
info. -/
abbrev Registry := List (String × ServiceInfo)

/-- First-match lookup in the registry (`self.services_info.get(service)`). -/
def svcLookup (reg : Registry) (service : String) : Option ServiceInfo :=
  match reg with
  | [] => none
  | (s, i) :: rest => if s = service then some i else svcLookup rest service

/-- `self.services_info[service] = info`: update in place when present,
append otherwise. -/
def svcSet (reg : Registry) (service : String) (info : ServiceInfo) : Registry :=
  if (svcLookup reg service).isSome then
    reg.map (fun p => if p.1 = service then (service, info) else p)
  else
    reg ++ [(service, info)]

/-- The environment phase of `KeyManager._load_all_keys`: iterate
`ENV_PREFIXES` in order; a set, non-empty variable for a service not yet in
the registry registers it with `source="environment"`, `valid=None`,
`models=[]`. -/
def envStep (env : Dict) (reg : Registry) (sv : String × String) : Registry :=
  match dictGet env sv.2 with
  | some key =>
    if key.isEmpty then reg
    else if (svcLookup reg sv.1).isSome then reg
    else reg ++ [(sv.1, ⟨key, .environment, none, []⟩)]
  | none => reg

def loadEnvKeys (env : Dict) (reg : Registry) : Registry :=
  ENV_PREFIXES.foldl (envStep env) reg

/-- The file phase of `KeyManager._load_all_keys`: if the keys file exists and
parses, iterate its entries; names starting with `_` or equal to `"comment"`
are skipped, and an entry registers its service with `source="file"` only when
the name is not already registered and the value is non-empty.  A missing or
undecodable file contributes nothing. -/
def fileStep (reg : Registry) (sk : String × String) : Registry :=
  if startsWithUnderscore sk.1 || sk.1 = "comment" then reg
  else if !(svcLookup reg sk.1).isSome && !sk.2.isEmpty then
    reg ++ [(sk.1, ⟨sk.2, .file, none, []⟩)]
  else reg

def loadFileKeys (content : FileContent) (reg : Registry) : Registry :=
  if content.existsb then
    match content with
    | .json keys => keys.foldl fileStep reg
    | _ => reg
  else reg

/-- `KeyManager._load_all_keys`: environment first (when `use_env`), then the
keys file. -/
def load_all_keys (use_env : Bool) (env : Dict) (keysFile : FileContent) :
    Registry :=
  loadFileKeys keysFile (if use_env then loadEnvKeys env [] else [])

/-! ### Validation probes -/

/-- One element of the `data` list in an openai-shaped model listing: its
`"id"` field when present (`none` makes the list comprehension raise
`KeyError`, which the code swallows). -/
structure ModelEntry where
  id : Option String
  deriving DecidableEq, Repr

/-- The parts of a parsed response body the validation code inspects: the
`"data"` field (openai shape) and the `"models"` field (anthropic shape). -/
structure JsonBody where
  data : Option (List ModelEntry)
  models : Option (List String)
  deriving DecidableEq, Repr

/-- Outcome of one HTTP probe: a transport-level exception, or a response with
a status code and a body (`none` when `response.json()` raises). -/
inductive HttpResult
  | exn
  | resp (status : Nat) (body : Option JsonBody)
  deriving DecidableEq, Repr

/-- `[model["id"] for model in data["data"]]`: all ids, or `none` when some
entry lacks an `"id"` (the comprehension raises before assignment, so the
previous `models` value survives). -/
def extractIds : List ModelEntry → Option (List String)
  | [] => some []
  | e :: rest =>
    match e.id with
    | some i => (extractIds rest).map (fun l => i :: l)
    | none => none

/-- Whether a service has a validation endpoint registered
(`service in BASE_URLS and service in TEST_ENDPOINTS`). -/
def supportedService (service : String) : Bool :=
  (dictGet BASE_URLS service).isSome && (dictGet TEST_ENDPOINTS service).isSome

/-- The per-service body of `KeyManager._validate_keys` (and of
`_validate_service_key`, which duplicates it): an unsupported service gets
`valid=None`; otherwise a probe is made and HTTP 200 sets `valid=True` with a
best-effort model extraction (openai: ids under `data`; anthropic: the
`models` field; any parse failure is swallowed, leaving `models` as it was),
a non-200 status sets `valid=False`, and any exception is caught and sets
`valid=False` — validation never propagates an exception, which is why this
embedding is a total function into `ServiceInfo` rather than an `Except`. -/
def validateServiceInfo (service : String) (info : ServiceInfo)
    (r : HttpResult) : ServiceInfo :=
  if !supportedService service then
    { info with valid := none }
  else
    match r with
    | .exn => { info with valid := some false }
    | .resp status body =>
      if status = 200 then
        let info1 := { info with valid := some true }
        match body with
        | none => info1
        | some data =>
          if service = "openai" then
            match data.data with
            | some entries =>
              match extractIds entries with
              | some ids => { info1 with models := ids }
              | none => info1
            | none => info1
          else if service = "anthropic" then
            match data.models with
            | some ms => { info1 with models := ms }
            | none => info1
          else info1
      else { info with valid := some false }

/-- `KeyManager._validate_keys`: validate every registered service against its
own probe outcome. -/
def validate_keys (probe : String → HttpResult) (reg : Registry) : Registry :=
  reg.map (fun p => (p.1, validateServiceInfo p.1 p.2 (probe p.1)))

/-- `KeyManager._validate_service_key`: validate a single registered service
in place; a service not in the registry is left alone. -/
def validate_service_key (probe : String → HttpResult) (reg : Registry)
    (service : String) : Registry :=
  match svcLookup reg service with
  | none => reg
  | some _ =>
    reg.map (fun p =>
      if p.1 = service then (p.1, validateServiceInfo p.1 p.2 (probe p.1))
      else p)

/-! ### KeyManager state and mutating operations -/

/-- A propagating Python exception (the I/O errors `add_key` does not catch:
everything other than `json.JSONDecodeError` in its read phase, and any error
from `os.makedirs`). -/
inductive PyExn
  | oserror
  deriving DecidableEq, Repr

/-- Fault oracle for the I/O `add_key` performs on the keys file. -/
structure IOOracle where
  readFails : Bool
  mkdirFails : Bool
  writeFails : Bool
  deriving DecidableEq, Repr

/-- The observable state of a `KeyManager` instance together with the parts of
the world it interacts with: the content of its configured keys file (and
whether that file's containing directory is missing, which decides whether
`os.makedirs` runs), the two implicit fallback files used by the static
resolution path, the process environment, the `use_env` flag, and
`self.services_info`. -/
structure KMState where
  keys_file : FileContent
  keysDirMissing : Bool
  localFile : FileContent
  homeFile : FileContent
  env : Dict
  use_env : Bool
  services_info : Registry
  deriving DecidableEq, Repr

/-- `KeyManager.__init__`: load all keys (environment phase first when
`use_env`, then the keys file), then optionally validate every discovered
credential.  The path arithmetic choosing which concrete file
`self.keys_file` names (the given path, `./.keys.json`, or the parent
directory's `.keys.json`) only selects which content is read, so the content
is passed in directly. -/
def mkKeyManager (keysFile : FileContent) (keysDirMissing : Bool)
    (localFile homeFile : FileContent) (env : Dict)
    (use_env validateFlag : Bool) (probe : String → HttpResult) : KMState :=
  let reg := load_all_keys use_env env keysFile
  let reg := if validateFlag then validate_keys probe reg else reg
  ⟨keysFile, keysDirMissing, localFile, homeFile, env, use_env, reg⟩

/-- `KeyManager.get_api_key` (instance form): a registered service answers
from the registry; otherwise the static resolution path is tried with the
instance's keys file and `use_env` flag, and failure raises a `ValueError`
carrying the service name and its environment-variable name. -/
def KMState.getApiKey (st : KMState) (service : String) :
    Except CredentialNotFound String :=
  match svcLookup st.services_info service with
  | some info => .ok info.api_key
  | none =>
    match get_api_key service none (some st.keys_file)
        ⟨st.localFile, st.homeFile⟩ st.env st.use_env with
    | .ok k => .ok k
    | .error _ => .error ⟨service, envVarHint service⟩

/-- `KeyManager.add_key`.  An empty key returns `False` untouched.  With
`env=True` the mapped (or derived) environment variable is set, the
credential is registered with `source="environment"`, and that service is
re-validated.  Otherwise the keys file is read (only `json.JSONDecodeError`
is caught there — an OS error propagates), the new key merged in, the missing
containing directory created (`os.makedirs` errors propagate), and the merged
object written back; only write-phase errors are caught and turned into
`False`, and the registry is updated and re-validated only after a successful
write.  The returned pair is (outcome, state after the call): a propagating
exception also leaves the state as it was at the point of the raise. -/
def add_key (probe : String → HttpResult) (io : IOOracle) (st : KMState)
    (service key : String) (envFlag : Bool) : Except PyExn Bool × KMState :=
  if key.isEmpty then (.ok false, st)
  else if envFlag then
    let env_var := envVarHint service
    let st1 := { st with
      env := dictSet st.env env_var key,
      services_info := svcSet st.services_info service
        ⟨key, .environment, none, []⟩ }
    let st2 := { st1 with
      services_info := validate_service_key probe st1.services_info service }
    (.ok true, st2)
  else
    let existing? : Except PyExn Dict :=
      if st.keys_file.existsb then
        if io.readFails then .error .oserror
        else
          match st.keys_file with
          | .json d => .ok d
          | _ => .ok []
      else .ok []
    match existing? with
    | .error e => (.error e, st)
    | .ok existing =>
      let existing1 := dictSet existing service key
      if st.keysDirMissing && io.mkdirFails then (.error .oserror, st)
      else
        let st1 := { st with keysDirMissing := false }
        if io.writeFails then (.ok false, st1)
        else
          let st2 := { st1 with
            keys_file := .json existing1,
            services_info := svcSet st1.services_info service
              ⟨key, .file, none, []⟩ }
          let st3 := { st2 with
            services_info :=
              validate_service_key probe st2.services_info service }
          (.ok true, st3)

/-- `KeyManager.update_key`: an empty key returns `False`; a credential
registered from the environment has its variable re-set and its entry updated
in place (new key, `valid`/`models` reset) before re-validation; a
file-sourced or unregistered service is delegated to `add_key(..., env=False)`. -/
def update_key (probe : String → HttpResult) (io : IOOracle) (st : KMState)
    (service key : String) : Except PyExn Bool × KMState :=
  if key.isEmpty then (.ok false, st)
  else
    match svcLookup st.services_info service with
    | some info =>
      match info.source with
      | .environment =>
        let env_var := envVarHint service
        let st1 := { st with
          env := dictSet st.env env_var key,
          services_info := svcSet st.services_info service
            { info with api_key := key, valid := none, models := [] } }
        let st2 := { st1 with
          services_info :=
            validate_service_key probe st1.services_info service }
        (.ok true, st2)
      | .file => add_key probe io st service key false
    | none => add_key probe io st service key false

/-- `KeyManager.available_services` under value semantics: the per-entry
`info.copy()` dict copies carry the same field values, so as a value the
result is the registry itself.  (Reference sharing of the `models` list,
which value semantics cannot see, is treated in the heap model below.) -/
def available_services (st : KMState) : Registry :=
  st.services_info.map (fun p => (p.1, p.2))

/-! ### `save_keys` (static) -/

/-- A standalone target file for `save_keys`: its content and whether its
containing directory is missing. -/
structure FsFile where
  dirMissing : Bool
  content : FileContent
  deriving DecidableEq, Repr

/-- The read phase of `save_keys`: a missing file or a `json.JSONDecodeError`
yields the empty object. -/
def parseOrEmpty : FileContent → Dict
  | .json d => d
  | _ => []

/-- `existing_keys.update(keys)` on Python dictionaries: keys already present
keep their position and take the new value; new keys are appended in the
update's order. -/
def dictUpdate (base m : Dict) : Dict :=
  base.map (fun p => (p.1, (dictGet m p.1).getD p.2))
    ++ m.filter (fun p => (dictGet base p.1).isNone)

/-- `KeyManager.save_keys`: create the containing directory if missing, merge
the given mapping into the existing JSON object (missing or undecodable
content counts as empty), and write the result back.  OS errors would
propagate; the claims about `save_keys` concern the fault-free path, so none
are injected here. -/
def save_keys (keys : Dict) (f : FsFile) : FsFile :=
  ⟨false, .json (dictUpdate (parseOrEmpty f.content) keys)⟩

/-! ### Heap-refined model of `available_services`

`available_services` returns `{service: info.copy() for ...}`.  The outer
dictionary and every per-service info dictionary are freshly allocated, but
`info.copy()` is a *shallow* copy: the `"models"` value inside the copy is the
same list object as the one inside the registry.  To reason about what caller
mutation can reach, info dictionaries and models lists are given explicit
heap cells here; dictionary and list values are cell references. -/

/-- A per-service info dictionary as a heap cell: scalar fields by value, the
`models` list by reference into the models heap. -/
structure InfoCell where
  api_key : String
  source : Source
  valid : Option Bool
  modelsRef : Nat
  deriving DecidableEq, Repr

/-- Registry state with explicit heaps: `services_info` maps service names to
info-cell references; info cells point at models-list cells. -/
structure KMHeap where
  services_info : List (String × Nat)
  infoHeap : List InfoCell
  modelsHeap : List (List String)
  deriving DecidableEq, Repr

/-- First-match lookup of an info-cell reference. -/
def refLookup (m : List (String × Nat)) (service : String) : Option Nat :=
  match m with
  | [] => none
  | (s, r) :: rest => if s = service then some r else refLookup rest service

/-- Dereference an info cell. -/
def readInfo (st : KMHeap) (r : Nat) : InfoCell :=
  st.infoHeap.getD r ⟨"", .file, none, 0⟩

/-- Dereference a models-list cell. -/
def readModels (st : KMHeap) (r : Nat) : List String :=
  st.modelsHeap.getD r []

/-- In-place mutation of a models list (e.g. `lst.append(x)` through any
reference to it). -/
def writeModels (st : KMHeap) (r : Nat) (v : List String) : KMHeap :=
  { st with modelsHeap := st.modelsHeap.set r v }

/-- In-place mutation of an info dictionary (e.g. `d["api_key"] = ...`)
through a reference to it. -/
def writeInfo (st : KMHeap) (r : Nat) (f : InfoCell → InfoCell) : KMHeap :=
  { st with infoHeap := st.infoHeap.set r (f (readInfo st r)) }

/-- The registry's own view of one service: the fields of its info dict with
the models list resolved through the heap. -/
def registryView (st : KMHeap) (service : String) :
    Option (String × Source × Option Bool × List String) :=
  (refLookup st.services_info service).map (fun r =>
    let c := readInfo st r
    (c.api_key, c.source, c.valid, readModels st c.modelsRef))

/-- The same view through a returned mapping (the result of
`available_services`). -/
def mappingView (st : KMHeap) (ret : List (String × Nat)) (service : String) :
    Option (String × Source × Option Bool × List String) :=
  (refLookup ret service).map (fun r =>
    let c := readInfo st r
    (c.api_key, c.source, c.valid, readModels st c.modelsRef))

/-- `{service: info.copy() for service, info in self.services_info.items()}`:
for each entry allocate a fresh info cell with the same field values — in
particular the same `modelsRef`, because `dict.copy()` copies the list
reference, not the list. -/
def copyInfos (entries : List (String × Nat)) (st : KMHeap) :
    List (String × Nat) × KMHeap :=
  match entries with
  | [] => ([], st)
  | p :: rest =>
    let r := st.infoHeap.length
    let st1 := { st with infoHeap := st.infoHeap ++ [readInfo st p.2] }
    let (ret, st2) := copyInfos rest st1
    ((p.1, r) :: ret, st2)

/-- `KeyManager.available_services` in the heap model: a fresh outer mapping
of fresh (shallow) info-dict copies, plus the heap as extended by the
allocations. -/
def availableServicesHeap (st : KMHeap) : List (String × Nat) × KMHeap :=
  copyInfos st.services_info st

/-- Well-formedness of a heap registry state: every registered info-cell
reference is in range, and so is the models reference it holds. -/
def KMHeap.wf (st : KMHeap) : Prop :=
  ∀ p ∈ st.services_info,
    p.2 < st.infoHeap.length ∧ (readInfo st p.2).modelsRef < st.modelsHeap.length

instance (st : KMHeap) : Decidable st.wf := by
  unfold KMHeap.wf
  infer_instance

/-! ### Reachable registry states -/

/-- States of a `KeyManager` reachable through construction and the mutating
operations (`add_key`, `update_key`, re-validation). -/
inductive Reachable : KMState → Prop
  | init (keysFile : FileContent) (keysDirMissing : Bool)
      (localFile homeFile : FileContent) (env : Dict)
      (use_env validateFlag : Bool) (probe : String → HttpResult) :
      Reachable (mkKeyManager keysFile keysDirMissing localFile homeFile env
        use_env validateFlag probe)
  | add (probe : String → HttpResult) (io : IOOracle) (st : KMState)
      (service key : String) (envFlag : Bool) : Reachable st →
      Reachable (add_key probe io st service key envFlag).2
  | update (probe : String → HttpResult) (io : IOOracle) (st : KMState)
      (service key : String) : Reachable st →
      Reachable (update_key probe io st service key).2
  | revalidate (probe : String → HttpResult) (st : KMState) : Reachable st →
      Reachable { st with services_info := validate_keys probe st.services_info }

/-- The C10 invariant: every registered credential's key is non-empty. -/
def keysNonEmpty (reg : Registry) : Prop :=
  ∀ p ∈ reg, p.2.api_key.isEmpty = false

instance (reg : Registry) : Decidable (keysNonEmpty reg) := by
  unfold keysNonEmpty
  infer_instance

/-! ## Helper lemmas -/

theorem svcLookup_append_left {reg : Registry} {s : String} {i : ServiceInfo}
    (h : svcLookup reg s = some i) (l : Registry) :
    svcLookup (reg ++ l) s = some i := by
  induction reg with
  | nil => simp [svcLookup] at h
  | cons p rest ih =>
    rcases p with ⟨a, b⟩
    rw [List.cons_append]
    unfold svcLookup at h ⊢
    by_cases hp : a = s
    · rw [if_pos hp] at h ⊢
      exact h
    · rw [if_neg hp] at h ⊢
      exact ih h

theorem fileStep_preserves {reg : Registry} {s : String} {i : ServiceInfo}
    (h : svcLookup reg s = some i) (sk : String × String) :
    svcLookup (fileStep reg sk) s = some i := by
  unfold fileStep
  split
  · exact h
  · split
    · exact svcLookup_append_left h _
    · exact h

theorem foldl_fileStep_preserves {s : String} {i : ServiceInfo}
    (keys : List (String × String)) {reg : Registry}
    (h : svcLookup reg s = some i) :
    svcLookup (keys.foldl fileStep reg) s = some i := by
  induction keys generalizing reg with
  | nil => exact h
  | cons sk rest ih => exact ih (fileStep_preserves h sk)

theorem loadFileKeys_preserves {reg : Registry} {s : String} {i : ServiceInfo}
    (content : FileContent) (h : svcLookup reg s = some i) :
    svcLookup (loadFileKeys content reg) s = some i := by
  unfold loadFileKeys
  split
  · split
    · exact foldl_fileStep_preserves _ h
    · exact h
  · exact h

theorem validateServiceInfo_preserves (service : String) (info : ServiceInfo)
    (r : HttpResult) :
    (validateServiceInfo service info r).api_key = info.api_key ∧
    (validateServiceInfo service info r).source = info.source := by
  unfold validateServiceInfo
  repeat' split
  all_goals exact ⟨rfl, rfl⟩

theorem validate_keys_lookup_some {reg : Registry} {s : String}
    {i : ServiceInfo} (p : String → HttpResult)
    (h : svcLookup reg s = some i) :
    svcLookup (validate_keys p reg) s =
      some (validateServiceInfo s i (p s)) := by
  induction reg with
  | nil => simp [svcLookup] at h
  | cons q rest ih =>
    rcases q with ⟨a, b⟩
    unfold validate_keys at ih ⊢
    simp only [List.map_cons]
    unfold svcLookup at h ⊢
    by_cases ha : a = s
    · rw [if_pos ha] at h ⊢
      cases h
      rw [ha]
    · rw [if_neg ha] at h ⊢
      exact ih h

theorem validate_keys_lookup_none {reg : Registry} {s : String}
    (p : String → HttpResult) (h : svcLookup reg s = none) :
    svcLookup (validate_keys p reg) s = none := by
  induction reg with
  | nil => rfl
  | cons q rest ih =>
    rcases q with ⟨a, b⟩
    unfold validate_keys at ih ⊢
    simp only [List.map_cons]
    unfold svcLookup at h ⊢
    by_cases ha : a = s
    · rw [if_pos ha] at h
      cases h
    · rw [if_neg ha] at h ⊢
      exact ih h

theorem svcLookup_map_other {reg : Registry} {s t : String} (hts : t ≠ s)
    (f : String × ServiceInfo → ServiceInfo) :
    svcLookup (reg.map (fun p => if p.1 = s then (p.1, f p) else p)) t =
      svcLookup reg t := by
  induction reg with
  | nil => rfl
  | cons q rest ih =>
    rcases q with ⟨a, b⟩
    simp only [List.map_cons]
    by_cases has : a = s
    · rw [if_pos has]
      unfold svcLookup
      have hat : ¬a = t := by
        rw [has]
        exact fun hc => hts hc.symm
      rw [if_neg hat, if_neg hat]
      exact ih
    · rw [if_neg has]
      unfold svcLookup
      by_cases hat : a = t
      · rw [if_pos hat, if_pos hat]
      · rw [if_neg hat, if_neg hat]
        exact ih

/-! ## Claims C1, C7, C6, C2 -/

/-- C1: static resolution (`get_api_key` / `_get_api_key_static`) consults
the five sources — explicit key, given keys file, local working-directory
file, home-directory file, environment variable — in that fixed order, and
the first one that yields a (non-empty) key determines the result with no
fallthrough past a match; in particular a non-empty explicit key always wins,
with it absent a key-file hit wins, and with no file hit the environment
value is returned. -/
theorem c1_resolution_priority (service : String) (api_key : Option String)
    (keys_file : Option FileContent) (fs : Fs) (env : Dict) (use_env : Bool) :
    (get_api_key service api_key keys_file fs env use_env =
      match firstHit (sourceCandidates service api_key keys_file fs env use_env) with
      | some k => Except.ok k
      | none => Except.error ⟨service, envVarHint service⟩) ∧
    (∀ k : String, api_key = some k → k.isEmpty = false →
      get_api_key service api_key keys_file fs env use_env = .ok k) ∧
    (∀ c k, directSource api_key = none → keys_file = some c →
      fileSource c service = some k →
      get_api_key service api_key keys_file fs env use_env = .ok k) ∧
    (∀ v, directSource api_key = none →
      keys_file.bind (fun c => fileSource c service) = none →
      fileSource fs.localFile service = none →
      fileSource fs.homeFile service = none →
      envSource env service use_env = some v →
      get_api_key service api_key keys_file fs env use_env = .ok v) := by
  refine ⟨?_, ?_, ?_, ?_⟩
  · unfold get_api_key sourceCandidates
    cases h1 : directSource api_key with
    | some k => rfl
    | none =>
      cases h2 : keys_file.bind (fun c => fileSource c service) with
      | some k => simp [firstHit]
      | none =>
        cases h3 : fileSource fs.localFile service with
        | some k => simp [firstHit, h2]
        | none =>
          cases h4 : fileSource fs.homeFile service with
          | some k => simp [firstHit, h2, h3]
          | none =>
            cases h5 : envSource env service use_env with
            | some k => simp [firstHit, h2, h3, h4]
            | none => simp [firstHit, h2, h3, h4]
  · intro k hk hne
    unfold get_api_key
    simp [directSource, hk, hne]
  · intro c k hd hkf hfile
    unfold get_api_key
    rw [hd, hkf]
    simp [hfile]
  · intro v hd hkf hl hh he
    unfold get_api_key
    rw [hd, hkf, hl, hh, he]

/-- C1 witness: concrete instances of the three priority scenarios. -/
theorem c1_resolution_priority_witness :
    get_api_key "openai" (some "direct") (some (.json [("openai", "filek")]))
        ⟨.absent, .absent⟩ [("OPENAI_API_KEY", "envk")] true = .ok "direct" ∧
    get_api_key "openai" none (some (.json [("openai", "filek")]))
        ⟨.absent, .absent⟩ [("OPENAI_API_KEY", "envk")] true = .ok "filek" ∧
    get_api_key "openai" none (some (.json []))
        ⟨.absent, .absent⟩ [("OPENAI_API_KEY", "envk")] true = .ok "envk" := by
  refine ⟨?_, ?_, ?_⟩
  · exact (c1_resolution_priority "openai" (some "direct")
      (some (.json [("openai", "filek")])) ⟨.absent, .absent⟩
      [("OPENAI_API_KEY", "envk")] true).2.1 "direct" rfl (by decide)
  · exact (c1_resolution_priority "openai" none
      (some (.json [("openai", "filek")])) ⟨.absent, .absent⟩
      [("OPENAI_API_KEY", "envk")] true).2.2.1 (.json [("openai", "filek")])
      "filek" (by decide) rfl (by decide)
  · exact (c1_resolution_priority "openai" none (some (.json []))
      ⟨.absent, .absent⟩ [("OPENAI_API_KEY", "envk")] true).2.2.2 "envk"
      (by decide) (by decide) (by decide) (by decide) (by decide)

/-- C7: the key-file lookup used by resolution tries exactly the four
variants exact-service, `service_api_key`, `SERVICE`, `SERVICE_API_KEY` in
order and returns the first variant present; a file containing only
`OPENAI_API_KEY` resolves service `openai`, as does one containing only
`openai_api_key`. -/
theorem c7_key_file_variants (keys : Dict) (service : String) :
    (loadFromFile (.json keys) service =
      (dictGet keys service <|> dictGet keys (service ++ "_api_key") <|>
       dictGet keys (pyUpper service) <|>
       dictGet keys (pyUpper service ++ "_API_KEY"))) ∧
    loadFromFile .absent service = none ∧
    loadFromFile .notJson service = none ∧
    get_api_key "openai" none (some (.json [("OPENAI_API_KEY", "x")]))
        ⟨.absent, .absent⟩ [] false = .ok "x" ∧
    get_api_key "openai" none (some (.json [("openai_api_key", "y")]))
        ⟨.absent, .absent⟩ [] false = .ok "y" := by
  refine ⟨?_, rfl, rfl, by decide, by decide⟩
  unfold loadFromFile
  cases h1 : dictGet keys service <;>
    cases h2 : dictGet keys (service ++ "_api_key") <;>
      cases h3 : dictGet keys (pyUpper service) <;>
        cases h4 : dictGet keys (pyUpper service ++ "_API_KEY") <;>
          simp [h1, h2, h3, h4]

theorem get_api_key_all_none (service : String)
    (keys_file : Option FileContent) (fs : Fs) (env : Dict) (use_env : Bool)
    (hkf : keys_file.bind (fun c => fileSource c service) = none)
    (hl : fileSource fs.localFile service = none)
    (hh : fileSource fs.homeFile service = none)
    (he : envSource env service use_env = none) :
    get_api_key service none keys_file fs env use_env =
      .error ⟨service, envVarHint service⟩ := by
  unfold get_api_key
  rw [hkf, hl, hh, he]
  rfl

/-- C6: when the explicit key is absent, no key file yields a key and the
environment yields none (also when environment checking is disabled),
resolution — static and instance form alike — fails with an error carrying
the service name and the environment-variable name that would have satisfied
it: the statically mapped variable for known services, and
`SERVICE.upper() + "_API_KEY"` (e.g. `FOOBAR_API_KEY` for `foobar`) for
unknown ones. -/
theorem c6_not_found_contract (service : String)
    (keys_file : Option FileContent) (fs : Fs) (env : Dict) (use_env : Bool)
    (hkf : keys_file.bind (fun c => fileSource c service) = none)
    (hl : fileSource fs.localFile service = none)
    (hh : fileSource fs.homeFile service = none)
    (he : envSource env service use_env = none) :
    get_api_key service none keys_file fs env use_env =
      .error ⟨service, envVarHint service⟩ ∧
    (∀ st : KMState, svcLookup st.services_info service = none →
      fileSource st.keys_file service = none →
      fileSource st.localFile service = none →
      fileSource st.homeFile service = none →
      envSource st.env service st.use_env = none →
      st.getApiKey service = .error ⟨service, envVarHint service⟩) ∧
    envVarHint "foobar" = "FOOBAR_API_KEY" ∧
    (∀ s v, dictGet ENV_PREFIXES s = some v → envVarHint s = v) ∧
    (∀ s, dictGet ENV_PREFIXES s = none →
      envVarHint s = pyUpper s ++ "_API_KEY") := by
  refine ⟨get_api_key_all_none service keys_file fs env use_env hkf hl hh he,
    ?_, by decide, ?_, ?_⟩
  · intro st hreg h1 h2 h3 h4
    unfold KMState.getApiKey
    rw [hreg]
    rw [get_api_key_all_none service (some st.keys_file)
      ⟨st.localFile, st.homeFile⟩ st.env st.use_env (by simpa using h1) h2 h3 h4]
  · intro s v hv
    unfold envVarHint
    rw [hv]
    rfl
  · intro s hs
    unfold envVarHint
    rw [hs]
    rfl

/-- C6 witness: the concrete not-found scenario for the unknown service
`foobar` with environment checking disabled. -/
theorem c6_not_found_contract_witness :
    get_api_key "foobar" none none ⟨.absent, .absent⟩ [] false =
      .error ⟨"foobar", "FOOBAR_API_KEY"⟩ := by
  have h := c6_not_found_contract "foobar" none ⟨.absent, .absent⟩ [] false
    (by decide) (by decide) (by decide) (by decide)
  rw [h.1]
  rw [h.2.2.1]

/-- C2: registry construction discovers environment credentials before
file credentials and never overwrites an already-registered service from a
lower-priority source; with `OPENAI_API_KEY=env1` set and a key file
containing `openai: file1`, the constructed registry is exactly one
credential for `openai` with source `environment` and key `env1`. -/
theorem c2_registry_precedence :
    (∀ (content : FileContent) (reg : Registry) (s : String) (i : ServiceInfo),
      svcLookup reg s = some i →
      svcLookup (loadFileKeys content reg) s = some i) ∧
    load_all_keys true [("OPENAI_API_KEY", "env1")] (.json [("openai", "file1")]) =
      [("openai", ⟨"env1", .environment, none, []⟩)] := by
  refine ⟨?_, by decide⟩
  intro content reg s i h
  exact loadFileKeys_preserves content h

/-- C2 witness: the preservation clause applied to the concrete
environment-registered credential, which the file entry cannot displace. -/
theorem c2_registry_precedence_witness :
    svcLookup (loadFileKeys (.json [("openai", "file1")])
        [("openai", ⟨"env1", .environment, none, []⟩)]) "openai" =
      some ⟨"env1", .environment, none, []⟩ :=
  c2_registry_precedence.1 (.json [("openai", "file1")])
    [("openai", ⟨"env1", .environment, none, []⟩)] "openai"
    ⟨"env1", .environment, none, []⟩ (by decide)

/-- C4: validation never propagates an exception (in this embedding it is a
total function into the registry: the code catches every exception): HTTP 200
sets `valid=true`, with models taken from the provider-specific body shape
when parseable and left as they were (empty at validation time) when not;
any non-200 status or transport exception sets `valid=false`; the key and
source are never touched; each service's outcome depends only on its own
entry and its own probe response, so a failure for one service leaves every
other registered service's fields unchanged (for single-service validation,
literally unchanged). -/
theorem c4_validation_contract :
    (∀ (service : String) (info : ServiceInfo) (r : HttpResult),
      (validateServiceInfo service info r).api_key = info.api_key ∧
      (validateServiceInfo service info r).source = info.source) ∧
    (∀ service info, supportedService service = true →
      validateServiceInfo service info .exn = { info with valid := some false }) ∧
    (∀ service info status body, supportedService service = true →
      status ≠ 200 →
      validateServiceInfo service info (.resp status body) =
        { info with valid := some false }) ∧
    (∀ service info body, supportedService service = true →
      (validateServiceInfo service info (.resp 200 body)).valid = some true) ∧
    (∀ info, validateServiceInfo "openai" info (.resp 200 none) =
      { info with valid := some true }) ∧
    (∀ info body entries ids, body.data = some entries →
      extractIds entries = some ids →
      validateServiceInfo "openai" info (.resp 200 (some body)) =
        { info with valid := some true, models := ids }) ∧
    (∀ info body entries, body.data = some entries →
      extractIds entries = none →
      validateServiceInfo "openai" info (.resp 200 (some body)) =
        { info with valid := some true }) ∧
    (∀ info body ms, body.models = some ms →
      validateServiceInfo "anthropic" info (.resp 200 (some body)) =
        { info with valid := some true, models := ms }) ∧
    (∀ (p : String → HttpResult) (reg : Registry) (s : String)
      (i : ServiceInfo), svcLookup reg s = some i →
      svcLookup (validate_keys p reg) s =
        some (validateServiceInfo s i (p s))) ∧
    (∀ (p1 p2 : String → HttpResult) (reg : Registry) (s : String),
      (∀ t, t ≠ s → p1 t = p2 t) → ∀ t, t ≠ s →
      svcLookup (validate_keys p1 reg) t = svcLookup (validate_keys p2 reg) t) ∧
    (∀ (p : String → HttpResult) (reg : Registry) (s t : String), t ≠ s →
      svcLookup (validate_service_key p reg s) t = svcLookup reg t) := by
  refine ⟨validateServiceInfo_preserves, ?_, ?_, ?_, ?_, ?_, ?_, ?_, ?_, ?_, ?_⟩
  · intro service info h
    unfold validateServiceInfo
    rw [h]
    rfl
  · intro service info status body h hstatus
    unfold validateServiceInfo
    rw [h]
    simp only [Bool.not_true, Bool.false_eq_true, if_false]
    rw [if_neg hstatus]
  · intro service info body h
    unfold validateServiceInfo
    rw [h]
    simp only [Bool.not_true, Bool.false_eq_true, if_false]
    repeat' split
    all_goals first | rfl | simp_all
  · intro info
    rfl
  · intro info body entries ids hdata hids
    simp only [validateServiceInfo, hdata, hids]
    rfl
  · intro info body entries hdata hids
    simp only [validateServiceInfo, hdata, hids]
    rfl
  · intro info body ms hms
    simp only [validateServiceInfo, hms]
    rfl
  · intro p reg s i h
    exact validate_keys_lookup_some p h
  · intro p1 p2 reg s hagree t hts
    cases h : svcLookup reg t with
    | some i =>
      rw [validate_keys_lookup_some p1 h, validate_keys_lookup_some p2 h,
        hagree t hts]
    | none =>
      rw [validate_keys_lookup_none p1 h, validate_keys_lookup_none p2 h]
  · intro p reg s t hts
    unfold validate_service_key
    cases h : svcLookup reg s with
    | none => rfl
    | some i => exact svcLookup_map_other hts _

/-- C4 witness: concrete instances — a transport failure marks the probed
service invalid, a 200 with a parseable openai body fills the models, and a
failure probe for `openai` leaves a co-registered `anthropic` entry exactly
as its own (successful) probe determines. -/
theorem c4_validation_contract_witness :
    validateServiceInfo "openai" ⟨"k1", .file, none, []⟩ .exn =
      ⟨"k1", .file, some false, []⟩ ∧
    validateServiceInfo "openai" ⟨"k1", .file, none, []⟩
        (.resp 200 (some ⟨some [⟨some "gpt-4"⟩, ⟨some "gpt-3.5"⟩], none⟩)) =
      ⟨"k1", .file, some true, ["gpt-4", "gpt-3.5"]⟩ ∧
    svcLookup (validate_keys
        (fun s => if s = "openai" then .exn else .resp 200 (some ⟨none, some ["c1"]⟩))
        [("openai", ⟨"k1", .file, none, []⟩), ("anthropic", ⟨"k2", .environment, none, []⟩)])
        "anthropic" =
      svcLookup (validate_keys
        (fun _ => .resp 200 (some ⟨none, some ["c1"]⟩))
        [("openai", ⟨"k1", .file, none, []⟩), ("anthropic", ⟨"k2", .environment, none, []⟩)])
        "anthropic" := by
  refine ⟨?_, ?_, ?_⟩
  · exact c4_validation_contract.2.1 "openai" ⟨"k1", .file, none, []⟩ (by decide)
  · exact c4_validation_contract.2.2.2.2.2.1 ⟨"k1", .file, none, []⟩
      ⟨some [⟨some "gpt-4"⟩, ⟨some "gpt-3.5"⟩], none⟩
      [⟨some "gpt-4"⟩, ⟨some "gpt-3.5"⟩] ["gpt-4", "gpt-3.5"] rfl (by decide)
  · exact c4_validation_contract.2.2.2.2.2.2.2.2.2.1
      (fun s => if s = "openai" then .exn else .resp 200 (some ⟨none, some ["c1"]⟩))
      (fun _ => .resp 200 (some ⟨none, some ["c1"]⟩))
      [("openai", ⟨"k1", .file, none, []⟩), ("anthropic", ⟨"k2", .environment, none, []⟩)]
      "openai"
      (fun t ht => by simp [ht]) "anthropic" (by decide)

/-- C3 counterexample: the claim "add_key returns false on any I/O failure
while persisting (creating the containing directory, reading the existing
file, or writing)" fails on the code — only write-phase failures are caught.
With a missing containing directory and a failing `os.makedirs`, and likewise
with an OS error while opening the existing file for reading, `add_key`
propagates the exception instead of returning `False` (the registry is left
unchanged either way). -/
theorem c3_counterexample :
    add_key (fun _ => .exn) ⟨false, true, false⟩
        ⟨.absent, true, .absent, .absent, [], true, []⟩ "svc" "k" false =
      (.error .oserror, ⟨.absent, true, .absent, .absent, [], true, []⟩) ∧
    add_key (fun _ => .exn) ⟨true, false, false⟩
        ⟨.json [("a", "b")], false, .absent, .absent, [], true, []⟩
        "svc" "k" false =
      (.error .oserror,
        ⟨.json [("a", "b")], false, .absent, .absent, [], true, []⟩) :=
  ⟨rfl, rfl⟩

/-- C3 (amended): `add_key` persisting to file returns false without mutating
anything when the key is empty, and returns false with the registry, file and
environment unchanged when the write of the merged result fails (undecodable
existing JSON is tolerated as an empty object rather than failing); the
credential is registered only after a successful persist, so every
non-successful outcome leaves the registry unchanged; but an OS error while
reading the existing file or while creating the missing containing directory
propagates as an exception instead of returning false (still leaving the
registry unchanged). -/
theorem c3_add_key_failure_contract (probe : String → HttpResult)
    (io : IOOracle) (st : KMState) (service key : String) :
    (∀ envFlag, key.isEmpty = true →
      add_key probe io st service key envFlag = (.ok false, st)) ∧
    ((add_key probe io st service key false).1 ≠ .ok true →
      (add_key probe io st service key false).2.services_info =
        st.services_info ∧
      (add_key probe io st service key false).2.keys_file = st.keys_file ∧
      (add_key probe io st service key false).2.env = st.env) ∧
    (key.isEmpty = false → io.readFails = false → io.mkdirFails = false →
      io.writeFails = true →
      add_key probe io st service key false =
        (.ok false, { st with keysDirMissing := false })) ∧
    (key.isEmpty = false → st.keys_file.existsb = true → io.readFails = true →
      add_key probe io st service key false = (.error .oserror, st)) ∧
    (key.isEmpty = false → io.readFails = false →
      st.keysDirMissing = true → io.mkdirFails = true →
      add_key probe io st service key false = (.error .oserror, st)) := by
  rcases io with ⟨rf, mf, wf⟩
  refine ⟨?_, ?_, ?_, ?_, ?_⟩
  · intro envFlag hk
    simp [add_key, hk]
  · intro h1
    by_cases hk : key.isEmpty <;> by_cases hdm : st.keysDirMissing <;>
      cases hkf : st.keys_file <;> cases rf <;> cases mf <;> cases wf <;>
        simp_all [add_key, FileContent.existsb]
  · intro hk hrf hmf hwf
    subst hrf hmf hwf
    cases hkf : st.keys_file <;> simp_all [add_key, FileContent.existsb]
  · intro hk hex hrf
    subst hrf
    simp_all [add_key]
  · intro hk hrf hdm hmf
    subst hrf hmf
    cases hkf : st.keys_file <;> simp_all [add_key, FileContent.existsb, hdm]

/-- C3 amended-claim witness: a concrete empty-key refusal, a concrete
write-phase failure returning false with everything unchanged, and a concrete
read-phase OS error propagating. -/
theorem c3_add_key_failure_contract_witness :
    add_key (fun _ => .exn) ⟨false, false, true⟩
        ⟨.json [("a", "b")], false, .absent, .absent, [], true, []⟩
        "svc" "" false =
      (.ok false, ⟨.json [("a", "b")], false, .absent, .absent, [], true, []⟩) ∧
    add_key (fun _ => .exn) ⟨false, false, true⟩
        ⟨.json [("a", "b")], false, .absent, .absent, [], true, []⟩
        "svc" "k" false =
      (.ok false, ⟨.json [("a", "b")], false, .absent, .absent, [], true, []⟩) ∧
    add_key (fun _ => .exn) ⟨true, false, false⟩
        ⟨.json [("a", "b")], false, .absent, .absent, [], true, []⟩
        "svc" "k" false =
      (.error .oserror,
        ⟨.json [("a", "b")], false, .absent, .absent, [], true, []⟩) := by
  refine ⟨?_, ?_, ?_⟩
  · exact (c3_add_key_failure_contract (fun _ => .exn) ⟨false, false, true⟩
      ⟨.json [("a", "b")], false, .absent, .absent, [], true, []⟩
      "svc" "").1 false rfl
  · exact (c3_add_key_failure_contract (fun _ => .exn) ⟨false, false, true⟩
      ⟨.json [("a", "b")], false, .absent, .absent, [], true, []⟩
      "svc" "k").2.2.1 rfl rfl rfl rfl
  · exact (c3_add_key_failure_contract (fun _ => .exn) ⟨true, false, false⟩
      ⟨.json [("a", "b")], false, .absent, .absent, [], true, []⟩
      "svc" "k").2.2.2.1 rfl rfl rfl

/-- C9: `update_key` with a non-empty key dispatches on the registered
source: an environment-sourced credential has its variable re-set and its
entry replaced by a fresh one (key updated, `valid`/`models` reset) and
re-validated — state-for-state the same as `add_key(..., env=True)`; a
file-sourced credential is delegated to `add_key(..., env=False)`, as is a
service that is not registered at all. -/
theorem c9_update_key_dispatch (probe : String → HttpResult) (io : IOOracle)
    (st : KMState) (service key : String) (hk : key.isEmpty = false) :
    (∀ info, svcLookup st.services_info service = some info →
      info.source = .environment →
      update_key probe io st service key =
        add_key probe io st service key true ∧
      (update_key probe io st service key).1 = .ok true ∧
      (update_key probe io st service key).2.env =
        dictSet st.env (envVarHint service) key ∧
      (update_key probe io st service key).2.services_info =
        validate_service_key probe
          (svcSet st.services_info service ⟨key, .environment, none, []⟩)
          service) ∧
    (∀ info, svcLookup st.services_info service = some info →
      info.source = .file →
      update_key probe io st service key =
        add_key probe io st service key false) ∧
    (svcLookup st.services_info service = none →
      update_key probe io st service key =
        add_key probe io st service key false) := by
  refine ⟨?_, ?_, ?_⟩
  · intro info hlook hsrc
    rcases info with ⟨ak, src, vl, md⟩
    simp only at hsrc
    subst hsrc
    refine ⟨?_, ?_, ?_, ?_⟩ <;> simp [update_key, add_key, hk, hlook]
  · intro info hlook hsrc
    rcases info with ⟨ak, src, vl, md⟩
    simp only at hsrc
    subst hsrc
    simp [update_key, hk, hlook]
  · intro hlook
    simp [update_key, hk, hlook]

/-- C9 witness: the environment branch at a concrete state — updating an
environment-sourced `openai` credential equals `add_key` to the
environment. -/
theorem c9_update_key_dispatch_witness :
    update_key (fun _ => .exn) ⟨false, false, false⟩
        ⟨.absent, false, .absent, .absent, [("OPENAI_API_KEY", "old")], true,
          [("openai", ⟨"old", .environment, some true, ["m"]⟩)]⟩
        "openai" "new" =
      add_key (fun _ => .exn) ⟨false, false, false⟩
        ⟨.absent, false, .absent, .absent, [("OPENAI_API_KEY", "old")], true,
          [("openai", ⟨"old", .environment, some true, ["m"]⟩)]⟩
        "openai" "new" true :=
  ((c9_update_key_dispatch (fun _ => .exn) ⟨false, false, false⟩
      ⟨.absent, false, .absent, .absent, [("OPENAI_API_KEY", "old")], true,
        [("openai", ⟨"old", .environment, some true, ["m"]⟩)]⟩
      "openai" "new" rfl).1
    ⟨"old", .environment, some true, ["m"]⟩ (by decide) rfl).1

theorem dictGet_cons (a b : String) (rest : Dict) (k : String) :
    dictGet ((a, b) :: rest) k = if a = k then some b else dictGet rest k := rfl

theorem dictGet_append (d1 d2 : Dict) (k : String) :
    dictGet (d1 ++ d2) k =
      match dictGet d1 k with
      | some v => some v
      | none => dictGet d2 k := by
  induction d1 with
  | nil => rfl
  | cons p rest ih =>
    rcases p with ⟨a, b⟩
    rw [List.cons_append, dictGet_cons, dictGet_cons]
    by_cases hak : a = k
    · rw [if_pos hak, if_pos hak]
    · rw [if_neg hak, if_neg hak]
      exact ih

theorem dictGet_mapUpdate (base m : Dict) (k : String) :
    dictGet (base.map (fun p => (p.1, (dictGet m p.1).getD p.2))) k =
      (dictGet base k).map (fun v => (dictGet m k).getD v) := by
  induction base with
  | nil => rfl
  | cons p rest ih =>
    rcases p with ⟨a, b⟩
    simp only [List.map_cons]
    rw [dictGet_cons, dictGet_cons]
    by_cases hak : a = k
    · subst hak
      rw [if_pos rfl, if_pos rfl]
      rfl
    · rw [if_neg hak, if_neg hak]
      exact ih

theorem dictGet_filter_of_base_none {base : Dict} {k : String} (m : Dict)
    (h : dictGet base k = none) :
    dictGet (m.filter (fun p => (dictGet base p.1).isNone)) k = dictGet m k := by
  induction m with
  | nil => rfl
  | cons p rest ih =>
    rcases p with ⟨a, b⟩
    by_cases hak : a = k
    · subst hak
      rw [List.filter_cons_of_pos (by simp [h])]
      rw [dictGet_cons, dictGet_cons, if_pos rfl, if_pos rfl]
    · cases hfa : (dictGet base a).isNone with
      | true =>
        rw [List.filter_cons_of_pos (by simpa using hfa)]
        rw [dictGet_cons, dictGet_cons, if_neg hak, if_neg hak]
        exact ih
      | false =>
        rw [List.filter_cons_of_neg (by simp [hfa])]
        rw [ih, dictGet_cons, if_neg hak]

theorem dictGet_filter_of_base_some {base : Dict} {k : String} (m : Dict)
    (h : (dictGet base k).isSome) :
    dictGet (m.filter (fun p => (dictGet base p.1).isNone)) k = none := by
  induction m with
  | nil => rfl
  | cons p rest ih =>
    rcases p with ⟨a, b⟩
    by_cases hak : a = k
    · subst hak
      rw [List.filter_cons_of_neg (by
        simp only [Option.isNone_iff_eq_none]
        simpa using Option.ne_none_iff_isSome.mpr h)]
      exact ih
    · cases hfa : (dictGet base a).isNone with
      | true =>
        rw [List.filter_cons_of_pos (by simpa using hfa)]
        rw [dictGet_cons, if_neg hak]
        exact ih
      | false =>
        rw [List.filter_cons_of_neg (by simp [hfa])]
        exact ih

theorem dictUpdate_lookup (base m : Dict) (k : String) :
    dictGet (dictUpdate base m) k =
      match dictGet base k with
      | some v => some ((dictGet m k).getD v)
      | none => dictGet m k := by
  unfold dictUpdate
  rw [dictGet_append, dictGet_mapUpdate]
  cases hb : dictGet base k with
  | some v => rfl
  | none =>
    simp only [Option.map_none]
    exact dictGet_filter_of_base_none m hb

theorem dictGet_of_mem_nodup {m : Dict} {k v : String} (hmem : (k, v) ∈ m)
    (hnd : (m.map Prod.fst).Nodup) : dictGet m k = some v := by
  induction m with
  | nil => cases hmem
  | cons p rest ih =>
    rcases p with ⟨a, b⟩
    simp only [List.map_cons, List.nodup_cons] at hnd
    rcases List.mem_cons.mp hmem with h | h
    · cases h
      unfold dictGet
      rw [if_pos rfl]
    · unfold dictGet
      by_cases hak : a = k
      · exfalso
        apply hnd.1
        subst hak
        exact List.mem_map.mpr ⟨(a, v), h, rfl⟩
      · rw [if_neg hak]
        exact ih h hnd.2

theorem dictGet_isSome_of_mem {m : Dict} {k v : String} (hmem : (k, v) ∈ m) :
    (dictGet m k).isSome := by
  induction m with
  | nil => cases hmem
  | cons p rest ih =>
    rcases p with ⟨a, b⟩
    unfold dictGet
    by_cases hak : a = k
    · rw [if_pos hak]
      rfl
    · rw [if_neg hak]
      rcases List.mem_cons.mp hmem with h | h
      · cases h
        exact absurd rfl hak
      · exact ih h

theorem dictUpdate_idem (base m : Dict) (hnd : (m.map Prod.fst).Nodup) :
    dictUpdate (dictUpdate base m) m = dictUpdate base m := by
  have hmapfix : ∀ p : String × String, p ∈ dictUpdate base m →
      (p.1, (dictGet m p.1).getD p.2) = p := by
    intro p hp
    unfold dictUpdate at hp
    rcases List.mem_append.mp hp with h | h
    · rcases List.mem_map.mp h with ⟨q, hq, hqe⟩
      cases hqe
      cases hg : dictGet m q.1 with
      | some w => simp [hg]
      | none => simp [hg]
    · have hpm : p ∈ m := List.mem_filter.mp h |>.1
      rcases p with ⟨a, b⟩
      have : dictGet m a = some b := dictGet_of_mem_nodup hpm hnd
      simp [this]
  have hfilter : m.filter (fun p => (dictGet (dictUpdate base m) p.1).isNone) = [] := by
    rw [List.filter_eq_nil_iff]
    intro p hp
    have hsome : (dictGet (dictUpdate base m) p.1).isSome := by
      rw [dictUpdate_lookup]
      cases hb : dictGet base p.1 with
      | some v => rfl
      | none =>
        rcases p with ⟨a, b⟩
        exact dictGet_isSome_of_mem hp
    simp [Option.isNone_iff_eq_none]
    exact Option.ne_none_iff_isSome.mpr hsome
  conv_lhs => rw [dictUpdate]
  rw [hfilter, List.append_nil]
  calc (dictUpdate base m).map (fun p => (p.1, (dictGet m p.1).getD p.2))
      = (dictUpdate base m).map id := List.map_congr_left hmapfix
    _ = dictUpdate base m := List.map_id _

/-- C8: `save_keys(mapping, path)` merges the mapping into the existing JSON
object at the path (creating parent directories as needed): the resulting
file holds every pair of the mapping, every pre-existing key not in the
mapping keeps its previous value, keys in both take the new value, and
repeating the identical call leaves the file content unchanged. -/
theorem c8_save_keys_merge (m : Dict) (f : FsFile)
    (hnd : (m.map Prod.fst).Nodup) :
    (save_keys m f).content = .json (dictUpdate (parseOrEmpty f.content) m) ∧
    (save_keys m f).dirMissing = false ∧
    (∀ k v, (k, v) ∈ m →
      dictGet (dictUpdate (parseOrEmpty f.content) m) k = some v) ∧
    (∀ k, dictGet m k = none →
      dictGet (dictUpdate (parseOrEmpty f.content) m) k =
        dictGet (parseOrEmpty f.content) k) ∧
    save_keys m (save_keys m f) = save_keys m f := by
  refine ⟨rfl, rfl, ?_, ?_, ?_⟩
  · intro k v hmem
    have hm : dictGet m k = some v := dictGet_of_mem_nodup hmem hnd
    rw [dictUpdate_lookup]
    cases hb : dictGet (parseOrEmpty f.content) k <;> simp [hm]
  · intro k hm
    rw [dictUpdate_lookup]
    cases hb : dictGet (parseOrEmpty f.content) k <;> simp [hm]
  · show (⟨false, .json (dictUpdate (parseOrEmpty (.json (dictUpdate (parseOrEmpty f.content) m))) m)⟩ : FsFile) = _
    rw [show parseOrEmpty (.json (dictUpdate (parseOrEmpty f.content) m)) =
      dictUpdate (parseOrEmpty f.content) m from rfl]
    rw [dictUpdate_idem _ m hnd]
    rfl

/-- C8 witness: the concrete round-trip of the spec — `svc` is written, a
pre-existing `other` key survives, a repeated identical call is a no-op. -/
theorem c8_save_keys_merge_witness :
    dictGet (dictUpdate (parseOrEmpty (FileContent.json
      [("other", "o"), ("svc", "old")])) [("svc", "k")]) "svc" = some "k" ∧
    dictGet (dictUpdate (parseOrEmpty (FileContent.json
      [("other", "o"), ("svc", "old")])) [("svc", "k")]) "other" = some "o" ∧
    save_keys [("svc", "k")] (save_keys [("svc", "k")]
        ⟨true, .json [("other", "o"), ("svc", "old")]⟩) =
      save_keys [("svc", "k")] ⟨true, .json [("other", "o"), ("svc", "old")]⟩ := by
  have h := c8_save_keys_merge [("svc", "k")]
    ⟨true, .json [("other", "o"), ("svc", "old")]⟩ (by decide)
  refine ⟨h.2.2.1 "svc" "k" (by decide), ?_, h.2.2.2.2⟩
  have h2 := h.2.2.2.1 "other" (by decide)
  rw [h2]
  decide

theorem listGetD_set_ne {α : Type} (l : List α) (r rr : Nat) (v d : α)
    (h : rr ≠ r) : (l.set r v).getD rr d = l.getD rr d := by
  induction l generalizing r rr with
  | nil => rfl
  | cons a rest ih =>
    cases r with
    | zero =>
      cases rr with
      | zero => exact absurd rfl h
      | succ n => rfl
    | succ rn =>
      cases rr with
      | zero => rfl
      | succ n => exact ih rn n (fun hc => h (by rw [hc]))

theorem refLookup_mem {m : List (String × Nat)} {s : String} {r : Nat}
    (h : refLookup m s = some r) : (s, r) ∈ m := by
  induction m with
  | nil => cases h
  | cons q rest ih =>
    rcases q with ⟨a, rr⟩
    unfold refLookup at h
    by_cases has : a = s
    · rw [if_pos has] at h
      cases h
      subst has
      exact List.mem_cons_self _ _
    · rw [if_neg has] at h
      exact List.mem_cons_of_mem _ (ih h)

theorem copyInfos_spec (entries : List (String × Nat)) (st : KMHeap) :
    (copyInfos entries st).2.services_info = st.services_info ∧
    (copyInfos entries st).2.modelsHeap = st.modelsHeap ∧
    st.infoHeap.length ≤ (copyInfos entries st).2.infoHeap.length ∧
    (∀ r, r < st.infoHeap.length →
      readInfo (copyInfos entries st).2 r = readInfo st r) ∧
    (∀ q ∈ (copyInfos entries st).1, st.infoHeap.length ≤ q.2) ∧
    (∀ s r, refLookup (copyInfos entries st).1 s = some r →
      ∃ rr, refLookup entries s = some rr ∧
        (rr < st.infoHeap.length →
          readInfo (copyInfos entries st).2 r = readInfo st rr)) := by
  induction entries generalizing st with
  | nil =>
    refine ⟨rfl, rfl, Nat.le_refl _, fun r _ => rfl, ?_, ?_⟩
    · intro q hq
      cases hq
    · intro s r hr
      cases hr
  | cons p rest ih =>
    obtain ⟨hsv, hmh, hlen, hpres, hfresh, hshare⟩ :=
      ih { st with infoHeap := st.infoHeap ++ [readInfo st p.2] }
    rcases hco : copyInfos rest
        { st with infoHeap := st.infoHeap ++ [readInfo st p.2] } with ⟨ret1, st2⟩
    rw [hco] at hsv hmh hlen hpres hfresh hshare
    have hlen1 : (st.infoHeap ++ [readInfo st p.2]).length =
        st.infoHeap.length + 1 := by simp
    have hcop : copyInfos (p :: rest) st =
        ((p.1, st.infoHeap.length) :: ret1, st2) := by
      show (match copyInfos rest
          { st with infoHeap := st.infoHeap ++ [readInfo st p.2] } with
        | (ret, st2) => ((p.1, st.infoHeap.length) :: ret, st2)) = _
      rw [hco]
    rw [hcop]
    dsimp only at hsv hmh hlen hpres hfresh hshare ⊢
    rw [hlen1] at hlen hpres hfresh
    have hpres0 : ∀ r, r < st.infoHeap.length →
        readInfo st2 r = readInfo st r := by
      intro r hr
      rw [hpres r (Nat.lt_succ_of_lt hr)]
      show (st.infoHeap ++ [readInfo st p.2]).getD r _ = _
      rw [List.getD_append _ _ _ _ hr]
      rfl
    refine ⟨hsv, hmh, ?_, hpres0, ?_, ?_⟩
    · exact Nat.le_trans (Nat.le_succ _) hlen
    · intro q hq
      rcases List.mem_cons.mp hq with h | h
      · rw [h]
      · exact Nat.le_trans (Nat.le_succ _) (hfresh q h)
    · intro s r h
      unfold refLookup at h
      by_cases hps : p.1 = s
      · rw [if_pos hps] at h
        cases h
        refine ⟨p.2, ?_, ?_⟩
        · unfold refLookup
          rw [if_pos hps]
        · intro hrr
          rw [hpres st.infoHeap.length (Nat.lt_succ_self _)]
          show (st.infoHeap ++ [readInfo st p.2]).getD st.infoHeap.length _ = _
          rw [List.getD_append_right _ _ _ _ (Nat.le_refl _), Nat.sub_self]
          rfl
      · rw [if_neg hps] at h
        obtain ⟨rr, hrr, heq⟩ := hshare s r h
        refine ⟨rr, ?_, ?_⟩
        · unfold refLookup
          rw [if_neg hps]
          exact hrr
        · intro hlt
          rw [heq (by rw [hlen1]; exact Nat.lt_succ_of_lt hlt)]
          show (st.infoHeap ++ [readInfo st p.2]).getD rr _ = _
          rw [List.getD_append _ _ _ _ hlt]
          rfl

/-- C5 counterexample: `available_services` returns shallow copies — the
`models` list inside a returned entry is the registry's own list object.
Appending to it through the returned mapping changes the registry's internal
state and what a subsequent `available_services` call reports, refuting the
claim that mutating nested entries of the returned structure never does. -/
theorem c5_counterexample :
    registryView ⟨[("openai", 0)], [⟨"sk-live", .file, some true, 0⟩],
        [["gpt-4"]]⟩ "openai" =
      some ("sk-live", .file, some true, ["gpt-4"]) ∧
    refLookup (availableServicesHeap ⟨[("openai", 0)],
        [⟨"sk-live", .file, some true, 0⟩], [["gpt-4"]]⟩).1 "openai" =
      some 1 ∧
    (readInfo (availableServicesHeap ⟨[("openai", 0)],
        [⟨"sk-live", .file, some true, 0⟩], [["gpt-4"]]⟩).2 1).modelsRef = 0 ∧
    registryView (writeModels (availableServicesHeap ⟨[("openai", 0)],
        [⟨"sk-live", .file, some true, 0⟩], [["gpt-4"]]⟩).2 0
        (["gpt-4"] ++ ["injected"])) "openai" =
      some ("sk-live", .file, some true, ["gpt-4", "injected"]) ∧
    mappingView (availableServicesHeap (writeModels (availableServicesHeap
        ⟨[("openai", 0)], [⟨"sk-live", .file, some true, 0⟩], [["gpt-4"]]⟩).2 0
        (["gpt-4"] ++ ["injected"]))).2
      (availableServicesHeap (writeModels (availableServicesHeap
        ⟨[("openai", 0)], [⟨"sk-live", .file, some true, 0⟩], [["gpt-4"]]⟩).2 0
        (["gpt-4"] ++ ["injected"]))).1 "openai" ≠
    mappingView (availableServicesHeap ⟨[("openai", 0)],
        [⟨"sk-live", .file, some true, 0⟩], [["gpt-4"]]⟩).2
      (availableServicesHeap ⟨[("openai", 0)],
        [⟨"sk-live", .file, some true, 0⟩], [["gpt-4"]]⟩).1 "openai" := by
  refine ⟨rfl, rfl, rfl, rfl, ?_⟩
  decide

/-- C5 (amended): the mapping returned by `available_services` and each
per-service info dict in it are fresh allocations, so mutating them — the
mapping itself, or any field of a returned info dict — never changes the
registry's internal state or later calls' results; but the per-entry copy is
shallow: each returned entry holds the registry's own models-list reference
(the returned cell is field-for-field the registry's cell, models reference
included), so in-place mutation of that list does reach the registry. -/
theorem c5_available_services_copy (st : KMHeap) (h : st.wf) :
    ((availableServicesHeap st).2.services_info = st.services_info ∧
     (availableServicesHeap st).2.modelsHeap = st.modelsHeap ∧
     (∀ s, registryView (availableServicesHeap st).2 s = registryView st s)) ∧
    (∀ s r, refLookup (availableServicesHeap st).1 s = some r →
      st.infoHeap.length ≤ r) ∧
    (∀ s r, refLookup (availableServicesHeap st).1 s = some r →
      ∃ rr, refLookup st.services_info s = some rr ∧
        readInfo (availableServicesHeap st).2 r = readInfo st rr) ∧
    (∀ r f, st.infoHeap.length ≤ r → ∀ s,
      registryView (writeInfo (availableServicesHeap st).2 r f) s =
        registryView st s) := by
  simp only [availableServicesHeap]
  obtain ⟨hsv, hmh, hlen, hpres, hfresh, hshare⟩ := copyInfos_spec st.services_info st
  have hwf : ∀ s rr, refLookup st.services_info s = some rr →
      rr < st.infoHeap.length := by
    intro s rr hrr
    exact (h _ (refLookup_mem hrr)).1
  have hview : ∀ s, registryView (copyInfos st.services_info st).2 s =
      registryView st s := by
    intro s
    unfold registryView
    rw [hsv]
    cases hrr : refLookup st.services_info s with
    | none => rfl
    | some rr =>
      simp only [Option.map_some']
      rw [hpres rr (hwf s rr hrr)]
      unfold readModels
      rw [hmh]
  refine ⟨⟨hsv, hmh, hview⟩, ?_, ?_, ?_⟩
  · intro s r hr
    exact hfresh _ (refLookup_mem hr)
  · intro s r hr
    obtain ⟨rr, hrr, heq⟩ := hshare s r hr
    exact ⟨rr, hrr, heq (hwf s rr hrr)⟩
  · intro r f hr s
    unfold registryView
    rw [show (writeInfo (copyInfos st.services_info st).2 r f).services_info =
      st.services_info from hsv]
    cases hrr : refLookup st.services_info s with
    | none => rfl
    | some rr =>
      simp only [Option.map_some']
      have hne : rr ≠ r :=
        Nat.ne_of_lt (Nat.lt_of_lt_of_le (hwf s rr hrr) hr)
      have hri : readInfo (writeInfo (copyInfos st.services_info st).2 r f) rr =
          readInfo st rr := by
        show ((copyInfos st.services_info st).2.infoHeap.set r _).getD rr _ = _
        rw [listGetD_set_ne _ _ _ _ _ hne]
        exact hpres rr (hwf s rr hrr)
      rw [hri]
      unfold readModels
      rw [show (writeInfo (copyInfos st.services_info st).2 r f).modelsHeap =
        st.modelsHeap from hmh]

/-- C5 amended-claim witness: the copy/freshness facts at the concrete
one-service state of the counterexample. -/
theorem c5_available_services_copy_witness :
    registryView (availableServicesHeap ⟨[("openai", 0)],
        [⟨"sk-live", .file, some true, 0⟩], [["gpt-4"]]⟩).2 "openai" =
      registryView ⟨[("openai", 0)], [⟨"sk-live", .file, some true, 0⟩],
        [["gpt-4"]]⟩ "openai" ∧
    registryView (writeInfo (availableServicesHeap ⟨[("openai", 0)],
        [⟨"sk-live", .file, some true, 0⟩], [["gpt-4"]]⟩).2 1
        (fun c => { c with api_key := "overwritten" })) "openai" =
      registryView ⟨[("openai", 0)], [⟨"sk-live", .file, some true, 0⟩],
        [["gpt-4"]]⟩ "openai" := by
  have h := c5_available_services_copy
    ⟨[("openai", 0)], [⟨"sk-live", .file, some true, 0⟩], [["gpt-4"]]⟩
    (by decide)
  exact ⟨h.1.2.2 "openai",
    h.2.2.2 1 (fun c => { c with api_key := "overwritten" })
      (by decide) "openai"⟩

theorem keysNonEmpty_append {r1 r2 : Registry} (h1 : keysNonEmpty r1)
    (h2 : keysNonEmpty r2) : keysNonEmpty (r1 ++ r2) := by
  intro p hp
  rcases List.mem_append.mp hp with h | h
  · exact h1 p h
  · exact h2 p h

theorem keysNonEmpty_single {s : String} {i : ServiceInfo}
    (hi : i.api_key.isEmpty = false) : keysNonEmpty [(s, i)] := by
  intro p hp
  rcases List.mem_cons.mp hp with hpe | hpe
  · rw [hpe]
    exact hi
  · cases hpe

theorem keysNonEmpty_foldl {β : Type} (f : Registry → β → Registry)
    (hf : ∀ reg b, keysNonEmpty reg → keysNonEmpty (f reg b))
    (l : List β) {reg : Registry} (h : keysNonEmpty reg) :
    keysNonEmpty (l.foldl f reg) := by
  induction l generalizing reg with
  | nil => exact h
  | cons b rest ih => exact ih (hf reg b h)

theorem keysNonEmpty_envStep (env : Dict) {reg : Registry}
    (h : keysNonEmpty reg) (sv : String × String) :
    keysNonEmpty (envStep env reg sv) := by
  unfold envStep
  cases hk : dictGet env sv.2 with
  | none => exact h
  | some key =>
    dsimp only
    split_ifs with h1 h2
    · exact h
    · exact h
    · refine keysNonEmpty_append h (keysNonEmpty_single ?_)
      simpa using h1

theorem keysNonEmpty_fileStep {reg : Registry} (h : keysNonEmpty reg)
    (sk : String × String) : keysNonEmpty (fileStep reg sk) := by
  unfold fileStep
  split_ifs with h1 h2
  · exact h
  · refine keysNonEmpty_append h (keysNonEmpty_single ?_)
    have := h2
    simp only [Bool.and_eq_true, Bool.not_eq_true'] at this
    exact this.2
  · exact h

theorem keysNonEmpty_load_all_keys (use_env : Bool) (env : Dict)
    (keysFile : FileContent) :
    keysNonEmpty (load_all_keys use_env env keysFile) := by
  have hnil : keysNonEmpty ([] : Registry) := by
    intro p hp
    cases hp
  have hbase : keysNonEmpty (if use_env then loadEnvKeys env [] else []) := by
    cases use_env
    · exact hnil
    · exact keysNonEmpty_foldl _ (fun reg b hb => keysNonEmpty_envStep env hb b)
        _ hnil
  unfold load_all_keys loadFileKeys
  split
  · split
    · exact keysNonEmpty_foldl _ (fun reg b hb => keysNonEmpty_fileStep hb b)
        _ hbase
    · exact hbase
  · exact hbase

theorem keysNonEmpty_svcSet {reg : Registry} (h : keysNonEmpty reg)
    (service : String) {info : ServiceInfo}
    (hi : info.api_key.isEmpty = false) :
    keysNonEmpty (svcSet reg service info) := by
  unfold svcSet
  split
  · intro p hp
    rcases List.mem_map.mp hp with ⟨q, hq, hqe⟩
    by_cases hqs : q.1 = service
    · rw [← hqe, if_pos hqs]
      exact hi
    · rw [← hqe, if_neg hqs]
      exact h q hq
  · exact keysNonEmpty_append h (keysNonEmpty_single hi)

theorem keysNonEmpty_validate_keys (p : String → HttpResult) {reg : Registry}
    (h : keysNonEmpty reg) : keysNonEmpty (validate_keys p reg) := by
  intro q hq
  rcases List.mem_map.mp hq with ⟨x, hx, hxe⟩
  rw [← hxe]
  show (validateServiceInfo x.1 x.2 (p x.1)).api_key.isEmpty = false
  rw [(validateServiceInfo_preserves x.1 x.2 (p x.1)).1]
  exact h x hx

theorem keysNonEmpty_validate_service_key (p : String → HttpResult)
    {reg : Registry} (h : keysNonEmpty reg) (service : String) :
    keysNonEmpty (validate_service_key p reg service) := by
  unfold validate_service_key
  split
  · exact h
  · intro q hq
    rcases List.mem_map.mp hq with ⟨x, hx, hxe⟩
    rw [← hxe]
    by_cases hxs : x.1 = service
    · rw [if_pos hxs]
      show (validateServiceInfo x.1 x.2 (p x.1)).api_key.isEmpty = false
      rw [(validateServiceInfo_preserves x.1 x.2 (p x.1)).1]
      exact h x hx
    · rw [if_neg hxs]
      exact h x hx

theorem keysNonEmpty_add_key (probe : String → HttpResult) (io : IOOracle)
    (st : KMState) (service key : String) (envFlag : Bool)
    (h : keysNonEmpty st.services_info) :
    keysNonEmpty (add_key probe io st service key envFlag).2.services_info := by
  unfold add_key
  split
  · exact h
  · rename_i hk
    have hk1 : key.isEmpty = false := by simpa using hk
    split
    · exact keysNonEmpty_validate_service_key probe
        (keysNonEmpty_svcSet h service hk1) service
    · repeat' split
      all_goals
        first
          | exact h
          | exact keysNonEmpty_validate_service_key probe
              (keysNonEmpty_svcSet h service hk1) service

theorem keysNonEmpty_update_key (probe : String → HttpResult) (io : IOOracle)
    (st : KMState) (service key : String)
    (h : keysNonEmpty st.services_info) :
    keysNonEmpty (update_key probe io st service key).2.services_info := by
  unfold update_key
  split
  · exact h
  · rename_i hk
    have hk1 : key.isEmpty = false := by simpa using hk
    split
    · split
      · exact keysNonEmpty_validate_service_key probe
          (keysNonEmpty_svcSet h service hk1) service
      · exact keysNonEmpty_add_key probe io st service key false h
    · exact keysNonEmpty_add_key probe io st service key false h

theorem keysNonEmpty_mkKeyManager (keysFile : FileContent)
    (keysDirMissing : Bool) (localFile homeFile : FileContent) (env : Dict)
    (use_env validateFlag : Bool) (probe : String → HttpResult) :
    keysNonEmpty (mkKeyManager keysFile keysDirMissing localFile homeFile env
      use_env validateFlag probe).services_info := by
  cases validateFlag
  · exact keysNonEmpty_load_all_keys use_env env keysFile
  · exact keysNonEmpty_validate_keys probe
      (keysNonEmpty_load_all_keys use_env env keysFile)

/-- C10: in every registry state reachable through construction, `add_key`,
`update_key`, and (re-)validation, every registered credential has a
non-empty `api_key`: discovery skips unset/empty environment variables and
empty key-file values, `add_key`/`update_key` reject an empty key before any
mutation, and validation never touches keys. -/
theorem c10_keys_never_empty (st : KMState) (h : Reachable st) :
    keysNonEmpty st.services_info := by
  induction h with
  | init keysFile keysDirMissing localFile homeFile env use_env validateFlag probe =>
    exact keysNonEmpty_mkKeyManager keysFile keysDirMissing localFile homeFile
      env use_env validateFlag probe
  | add probe io st service key envFlag hst ih =>
    exact keysNonEmpty_add_key probe io st service key envFlag ih
  | update probe io st service key hst ih =>
    exact keysNonEmpty_update_key probe io st service key ih
  | revalidate probe st hst ih =>
    exact keysNonEmpty_validate_keys probe ih

/-- C10 witness: a concrete reachable state — constructed with an empty
environment value and an empty key-file value present, then extended by
`add_key` — has only non-empty registered keys. -/
theorem c10_keys_never_empty_witness :
    keysNonEmpty (add_key (fun _ => .exn) ⟨false, false, false⟩
      (mkKeyManager (.json [("openai", "file1"), ("bad", "")]) false .absent
        .absent [("HF_API_KEY", "")] true true (fun _ => .exn))
      "svc" "k2" false).2.services_info :=
  c10_keys_never_empty _
    (Reachable.add _ _ _ _ _ _ (Reachable.init _ _ _ _ _ _ _ _))

end Aipitboss
